import Mathlib

/-
  Verification of the solstice physical-memory subsystem
  (src/mm/pmm.rs, src/mm/map.rs) against its specification.

  Shallow embedding conventions:
  * machine integers are modelled as Nat; where the claims probe u64
    wrap-around (the sizing math) the operations are taken mod 2^64
    explicitly;
  * Rust panics (expect, debug_assert, unreachable, out-of-bounds
    indexing) are modelled as Option.none or a dedicated result
    constructor;
  * the per-zone block slab is a List Block; out-of-range reads default
    to Block.Used, matching the encoding invariant that the byte 0 is
    Used and that slabs are zero-initialised.
-/

set_option maxRecDepth 100000

namespace Solstice

def PAGE_SIZE : Nat := 4096
def MAX_ZONES : Nat := 64
def MAX_ORDER : Nat := 11
def MAX_ORDER_PAGES : Nat := 2048

/-- x86_64::align_up for a power-of-two alignment: round x up to a
multiple of a.  For power-of-two a this equals the source's bit trick
(x + a - 1) and-not (a - 1). -/
def alignUp (x a : Nat) : Nat := (x + a - 1) / a * a

/-- Fuelled trailing-zero count; 64 units of fuel reproduce
u64::trailing_zeros for nonzero inputs below 2^64. -/
def tzFuel : Nat → Nat → Nat
  | 0, _ => 0
  | f + 1, n => if n % 2 = 1 then 0 else 1 + tzFuel f (n / 2)

/-- u64::trailing_zeros: 64 on input 0. -/
def u64tz (n : Nat) : Nat := if n = 0 then 64 else tzFuel 64 n

/-- Scan k upward while n > 2^k; the second argument is the
remaining fuel (the u64 bit width bounds the scan at 64). -/
def log2ceilAux (n : Nat) : Nat → Nat → Nat
  | k, 0 => k
  | k, f + 1 => if n ≤ 2 ^ k then k else log2ceilAux n (k + 1) f

/-- Ceiling log2: the least k with n <= 2^k (0 for n <= 1, and 64
when no such k below 64 exists). -/
def log2ceil (n : Nat) : Nat := log2ceilAux n 0 64

/-- u64::next_power_of_two (1 on input 0). -/
def nextPow2 (n : Nat) : Nat := 2 ^ log2ceil n

/-- Block from src/mm/pmm.rs.  LargestFreeOrder carries the stored
NonZeroU8 value, which is one more than the free order it denotes
(Block::from_order k stores k + 1). -/
inductive Block where
  | Used : Block
  | LargestFreeOrder : Nat → Block
deriving DecidableEq, Repr

/-- Block::from_order. -/
def Block.from_order (order : Nat) : Block := .LargestFreeOrder (order + 1)

/-- Block::larger_than: o.get() > order, i.e. free order >= order. -/
def Block.larger_than : Block → Nat → Bool
  | .Used, _ => false
  | .LargestFreeOrder v, order => decide (order < v)

/-- Block::parent_state. -/
def Block.parent_state : Block → Block → Block
  | .LargestFreeOrder l, .LargestFreeOrder r =>
      .LargestFreeOrder (if l = r then l + 1 else max l r)
  | .LargestFreeOrder x, .Used => .LargestFreeOrder x
  | .Used, .LargestFreeOrder x => .LargestFreeOrder x
  | .Used, .Used => .Used

/-- fn blocks_in_region. -/
def maxOrderBlocks (pages : Nat) : Nat :=
  alignUp pages MAX_ORDER_PAGES / MAX_ORDER_PAGES

/-- fn blocks_in_region: geometric series over all 12 levels. -/
def blocks_in_region (pages : Nat) : Nat :=
  maxOrderBlocks pages * (2 ^ (MAX_ORDER + 1) - 1)

/-- The slab produced by Block::new_blocks_for_region: zeroed memory,
i.e. blocks_in_region entries all reading as Used. -/
def zeroSlab (numPages : Nat) : List Block :=
  List.replicate (blocks_in_region numPages) .Used

/-- Zone from src/mm/pmm.rs.  pages is the frame range
[pagesStart, pagesEnd); order_list lists the 12 levels, level 0
first. -/
structure Zone where
  pagesStart : Nat
  pagesEnd : Nat
  num_pages : Nat
  order_list : List (List Block)
deriving DecidableEq, Repr

/-- Read the slot at (level, index); out-of-range reads default to
Used (the byte 0). -/
def Zone.slot (z : Zone) (L i : Nat) : Block :=
  (z.order_list.getD L []).getD i .Used

/-- Write the slot at (level, index); out-of-range writes are dropped
(they only arise on paths where the source panics). -/
def Zone.setSlot (z : Zone) (L i : Nat) (b : Block) : Zone :=
  { z with order_list := z.order_list.set L ((z.order_list.getD L []).set i b) }

/-- Zone::split_region: slice the slab top level first; level L gets
maxOrderBlocks * 2^(MAX_ORDER - L) entries. -/
def split_region (numPages : Nat) (blocks : List Block) : List (List Block) :=
  (List.range (MAX_ORDER + 1)).map fun L =>
    (blocks.drop (maxOrderBlocks numPages * (2 ^ (MAX_ORDER - L) - 1))).take
      (maxOrderBlocks numPages * 2 ^ (MAX_ORDER - L))

/-- Overwrite the first n entries of a list with b (the iter_mut take
loop in Zone::new). -/
def fillFirst (b : Block) : Nat → List Block → List Block
  | _, [] => []
  | 0, l => l
  | n + 1, _ :: xs => b :: fillFirst b n xs

/-- One step of the blocks_in_order recurrence in Zone::new. -/
def bioStep (b : Nat) : Nat := b / 2 + if b % 2 = 0 then 0 else 1

/-- The per-level fill loop of Zone::new. -/
def initFillFrom : Nat → Nat → List (List Block) → List (List Block)
  | _, _, [] => []
  | order, bio, l :: ls =>
      fillFirst (Block.from_order order) bio l ::
        initFillFrom (order + 1) (bioStep bio) ls

/-- list[0] = b (no-op on an empty level, where the source would
panic; levels are nonempty whenever numPages >= 1). -/
def setHead (b : Block) : List Block → List Block
  | [] => []
  | _ :: xs => b :: xs

/-- The largest_order loop of Zone::new: from level lo up, set the
head slot of every level to b. -/
def overwriteFrom (b : Block) : Nat → List (List Block) → List (List Block)
  | _, [] => []
  | 0, l :: ls => setHead b l :: overwriteFrom b 0 ls
  | lo + 1, l :: ls => l :: overwriteFrom b lo ls

/-- Zone::new. -/
def Zone.new (addr size : Nat) (blocks : List Block) : Zone :=
  let numPages := size / PAGE_SIZE
  let ol0 := split_region numPages blocks
  let ol1 := initFillFrom 0 numPages ol0
  let lo := min (u64tz (nextPow2 numPages)) (MAX_ORDER + 1)
  let ol2 := overwriteFrom (Block.from_order lo) lo ol1
  let startFrame := addr / PAGE_SIZE
  { pagesStart := startFrame, pagesEnd := startFrame + numPages,
    num_pages := numPages, order_list := ol2 }

/-- The loop body of Zone::update_tree; steps counts the remaining
iterations, co is current_order, idx indexes level co - 1. -/
def updateTreeGo : Zone → Nat → Nat → Nat → Zone
  | z, _, _, 0 => z
  | z, co, idx, steps + 1 =>
      let leftIdx := 2 * (idx / 2)
      let l := z.slot (co - 1) leftIdx
      let r := z.slot (co - 1) (leftIdx + 1)
      updateTreeGo (z.setSlot co (idx / 2) (Block.parent_state l r))
        (co + 1) (idx / 2) steps

/-- Zone::update_tree. -/
def Zone.update_tree (z : Zone) (startOrder idx : Nat) : Zone :=
  updateTreeGo z (startOrder + 1) idx (MAX_ORDER - startOrder)

/-- The descent loop of Zone::alloc; none models the unreachable!
branch. -/
def Zone.descend (z : Zone) (order : Nat) : Nat → Nat → Option Nat
  | idx, 0 => some idx
  | idx, steps + 1 =>
      let co := order + steps
      let i2 := 2 * idx
      if (z.slot co i2).larger_than order then z.descend order i2 steps
      else if (z.slot co (i2 + 1)).larger_than order then
        z.descend order (i2 + 1) steps
      else none

/-- Result of Zone::alloc: fail is the early None return (the zone is
returned as the loop left it), stuck is the unreachable! panic, ok
carries the new zone and the returned frame range [s, e). -/
inductive AllocResult where
  | fail : Zone → AllocResult
  | stuck : AllocResult
  | ok : Zone → Nat → Nat → AllocResult
deriving DecidableEq, Repr

/-- The iter().enumerate().find of Zone::alloc: index of the first
entry satisfying p, counting from i. -/
def findFirst (p : Block → Bool) : List Block → Nat → Option Nat
  | [], _ => none
  | b :: bs, i => if p b then some i else findFirst p bs (i + 1)

/-- Zone::alloc. -/
def Zone.alloc (z : Zone) (order : Nat) : AllocResult :=
  match findFirst (fun blk => blk.larger_than order) (z.order_list.getD MAX_ORDER []) 0 with
  | none => .fail z
  | some idx0 =>
    match z.descend order idx0 (MAX_ORDER - order) with
    | none => .stuck
    | some idx =>
      let z1 := (z.setSlot order idx .Used).update_tree order idx
      let s := z.pagesStart + 2 ^ order * idx
      let e := z.pagesStart + 2 ^ order * (idx + 1)
      .ok z1 s e

/-- Zone::free on the frame range [sFrame, eFrame); none models the
panic paths (the failing debug asserts, or in release builds the
out-of-bounds order_list index).  len is the byte length, order its
trailing-zero count exactly as in the source. -/
def Zone.free (z : Zone) (sFrame eFrame : Nat) : Option Zone :=
  let len := (eFrame - sFrame) * PAGE_SIZE
  let order := u64tz len
  if order ≤ MAX_ORDER then
    if z.pagesStart ≤ sFrame ∧ eFrame ≤ z.pagesEnd then
      let idx := (sFrame - z.pagesStart) / len
      if z.slot order idx = .Used then
        some ((z.setSlot order idx (Block.from_order order)).update_tree order idx)
      else none
    else none
  else none

/-- The frame range carried by an ok allocation result. -/
def allocRange : AllocResult → Option (Nat × Nat)
  | .ok _ s e => some (s, e)
  | _ => none

/-- The zone carried by an ok allocation result. -/
def allocZone : AllocResult → Option Zone
  | .ok z _ _ => some z
  | _ => none

/-- Whether an allocation result is the early-None failure. -/
def AllocResult.isFail : AllocResult → Bool
  | .fail _ => true
  | _ => false

/-- Region from src/mm/map.rs: a physically contiguous byte span. -/
structure Region where
  addr : Nat
  size : Nat
deriving DecidableEq, Repr

/-- MemoryMap from src/mm/map.rs (the bootstrap bump frame
allocator). -/
structure MemoryMap where
  regions : List Region
  num_pages : Nat
deriving DecidableEq, Repr

/-- The region-scan loop of MemoryMap::allocate_frame: find the first
region with size >= 4096 bytes, return the frame containing its head
address, advance the region by one page, and drop it when it becomes
empty. -/
def allocFrameRegions : List Region → Option (Nat × List Region)
  | [] => none
  | rg :: rest =>
      if 4096 ≤ rg.size then
        let out := rg.addr / 4096 * 4096
        let advanced : Region := { addr := rg.addr + 4096, size := rg.size - 4096 }
        some (out, if advanced.size = 0 then rest else advanced :: rest)
      else
        (allocFrameRegions rest).map fun p => (p.1, rg :: p.2)

/-- MemoryMap::allocate_frame.  The returned Nat is the start address
of the returned PhysFrame; none models the out-of-memory panic of the
expect call. -/
def MemoryMap.allocate_frame (m : MemoryMap) : Option (Nat × MemoryMap) :=
  (allocFrameRegions m.regions).map fun p =>
    (p.1, { regions := p.2, num_pages := m.num_pages - 1 })

/-- RegionBumpAllocator from src/mm/map.rs. -/
structure RegionBumpAllocator where
  start : Nat
  size : Nat
  offset : Nat
deriving DecidableEq, Repr

/-- From of Region for RegionBumpAllocator. -/
def RegionBumpAllocator.fromRegion (rg : Region) : RegionBumpAllocator :=
  { start := rg.addr, size := rg.size, offset := 0 }

/-- RegionBumpAllocator::alloc for a layout of the given size and
alignment.  physOffset stands for PHYS_OFFSET, which is declared in
src/mm/mod.rs, not among the sources; modelled from the spec as a
fixed kernel-half virtual base passed as a parameter. -/
def RegionBumpAllocator.alloc (rba : RegionBumpAllocator) (physOffset sz align : Nat) :
    Option (Nat × RegionBumpAllocator) :=
  let newOff := alignUp (rba.offset + sz) align
  if rba.size < newOff then none
  else
    some (rba.start + alignUp rba.offset align + physOffset,
          { rba with offset := newOff })

/-- Result of the zone loop in PhysAllocator::alloc: oom models the
final out-of-memory panic, stuckZone a panic inside a zone. -/
inductive PAllocResult where
  | oom : PAllocResult
  | stuckZone : PAllocResult
  | ok : List Zone → Nat → Nat → PAllocResult
deriving DecidableEq, Repr

/-- PhysAllocator::alloc over the zones list: try each zone in order,
return the first success, panic only after every zone failed. -/
def PhysAllocator.allocZones (order : Nat) : List Zone → PAllocResult
  | [] => .oom
  | z :: rest =>
      match z.alloc order with
      | .ok z' s e => .ok (z' :: rest) s e
      | .stuck => .stuckZone
      | .fail z' =>
          match PhysAllocator.allocZones order rest with
          | .ok zs s e => .ok (z' :: zs) s e
          | r => r

/-- The containment test of PhysAllocator::free. -/
def zoneContains (z : Zone) (sFrame eFrame : Nat) : Bool :=
  decide (z.pagesStart ≤ sFrame) && decide (eFrame ≤ z.pagesEnd)

/-- PhysAllocator::free over the zones list: deliver the range to the
first zone containing it; none models the unmanaged-range panic (or a
panic inside the owning zone's free). -/
def PhysAllocator.freeZones (sFrame eFrame : Nat) : List Zone → Option (List Zone)
  | [] => none
  | z :: rest =>
      if zoneContains z sFrame eFrame then
        (z.free sFrame eFrame).map (· :: rest)
      else
        (PhysAllocator.freeZones sFrame eFrame rest).map (z :: ·)

def U64 : Nat := 2 ^ 64

/-- u64 multiplication (wrapping). -/
def mul64 (x y : Nat) : Nat := x * y % U64

/-- u64 subtraction (wrapping). -/
def sub64 (x y : Nat) : Nat := (x % U64 + (U64 - y % U64)) % U64

/-- x86_64::align_up in u64 arithmetic, for power-of-two a. -/
def alignUp64 (x a : Nat) : Nat := (x + (a - 1)) % U64 / a * a

/-- Modelled from the spec: PageInfo is the implementation-defined
per-page metadata record declared in src/mm/mod.rs, which is not among
the sources; only its fixed nonzero size W enters the sizing math
here.  The sizing theorems treat W parametrically; this value (one
64-bit word) instantiates the concrete computations. -/
def PageInfoSize : Nat := 8

/-- fn blocks_in_region in u64 arithmetic. -/
def blocks_in_region64 (pages : Nat) : Nat :=
  mul64 (alignUp64 pages MAX_ORDER_PAGES / MAX_ORDER_PAGES) (2 ^ (MAX_ORDER + 1) - 1)

/-- fn usable_pages in u64 arithmetic, with the PageInfo size W as a
parameter. -/
def usable_pages64 (W total_pages : Nat) : Nat :=
  sub64
    (sub64 (mul64 PAGE_SIZE total_pages) (blocks_in_region64 total_pages) / (W + PAGE_SIZE))
    2

/-- fn usable_pages at the modelled PageInfo size. -/
def usable_pages (total_pages : Nat) : Nat := usable_pages64 PageInfoSize total_pages

lemma tzFuel_mul_pow (k : Nat) : ∀ f d : Nat, 1 ≤ d → k ≤ f →
    tzFuel f (d * 2 ^ k) = k + tzFuel (f - k) d := by
  induction k with
  | zero => intro f d _ _; simp
  | succ k ih =>
    intro f d hd hf
    match f, hf with
    | f + 1, hf =>
      have h2 : d * 2 ^ (k + 1) = d * 2 ^ k * 2 := by ring
      have hmod : d * 2 ^ (k + 1) % 2 = 0 := by rw [h2]; simp [Nat.mul_mod_left]
      have hdiv : d * 2 ^ (k + 1) / 2 = d * 2 ^ k := by rw [h2]; simp
      simp only [tzFuel, hmod, if_neg (by omega : ¬ (0 : Nat) = 1), hdiv]
      rw [ih f d hd (Nat.le_of_succ_le_succ hf), Nat.succ_sub_succ]
      omega

lemma u64tz_len_gt (d : Nat) : MAX_ORDER < u64tz (d * PAGE_SIZE) := by
  rcases Nat.eq_zero_or_pos d with h | h
  · simp [h, u64tz, MAX_ORDER]
  · have hne : d * PAGE_SIZE ≠ 0 :=
      Nat.pos_iff_ne_zero.mp (Nat.mul_pos h (by norm_num [PAGE_SIZE]))
    unfold u64tz
    rw [if_neg hne, show d * PAGE_SIZE = d * 2 ^ 12 from rfl,
      tzFuel_mul_pow 12 64 d h (by omega)]
    have : MAX_ORDER = 11 := rfl
    omega

/-- Zone::free panics on every input: the computed order is the
trailing-zero count of the byte length, which is at least 12 for any
nonempty page-aligned range (and 64 for an empty one), so the
order bound check can never pass. -/
lemma Zone.free_eq_none (z : Zone) (s e : Nat) : z.free s e = none := by
  have h := u64tz_len_gt (e - s)
  simp only [Zone.free]
  rw [if_neg (Nat.not_le.mpr h)]

/-- C1: the claimed alloc/free round trip never completes: Zone::free
panics on every input (its computed order is at least 12, failing its
own debug assertion; in release builds the order_list index is out of
bounds), in particular on the exact range just returned by a
successful alloc(0) from a fresh one-page zone, so the tree is never
restored. -/
theorem c1_roundtrip_broken :
    (∀ (z : Zone) (s e : Nat), z.free s e = none) ∧
    allocRange ((Zone.new 0 PAGE_SIZE (zeroSlab 1)).alloc 0) = some (0, 1) ∧
    (match (Zone.new 0 PAGE_SIZE (zeroSlab 1)).alloc 0 with
     | .ok z1 _ _ => z1.free 0 1 = none
     | _ => False) := by
  exact ⟨fun z s e => Zone.free_eq_none z s e, rfl, Zone.free_eq_none _ 0 1⟩

/-- C2: Zone::free computes order = trailing_zeros(len) without
subtracting 12: for the one-page range [0, 1) the byte length is 4096
and the computed order is 12, not the claimed 0, so the debug
assertion order <= MAX_ORDER fails and free panics on every input. -/
theorem c2_free_order_no_sub12 :
    u64tz ((1 - 0) * PAGE_SIZE) = 12 ∧ MAX_ORDER < 12 ∧
    (∀ z : Zone, z.free 0 1 = none) :=
  ⟨rfl, by decide, fun z => Zone.free_eq_none z 0 1⟩

/-- C4: containment fails: on a zone of 3 pages (frames [0, 3)), the
second alloc(1) succeeds and returns the frame range [2, 4), which
extends one page past the end of the zone. -/
theorem c4_alloc_escapes_zone :
    (Zone.new 0 (3 * PAGE_SIZE) (zeroSlab 3)).pagesEnd = 3 ∧
    allocRange ((Zone.new 0 (3 * PAGE_SIZE) (zeroSlab 3)).alloc 1) = some (0, 2) ∧
    (match (Zone.new 0 (3 * PAGE_SIZE) (zeroSlab 3)).alloc 1 with
     | .ok z1 _ _ => allocRange (z1.alloc 1) = some (2, 4)
     | _ => False) := by
  refine ⟨rfl, rfl, ?_⟩
  show allocRange _ = some (2, 4)
  rfl

lemma findFirst_none {p : Block → Bool} :
    ∀ (l : List Block) (i : Nat), findFirst p l i = none → ∀ b ∈ l, p b = false := by
  intro l
  induction l with
  | nil => intro i _ b hb; cases hb
  | cons x xs ih =>
    intro i h b hb
    by_cases hx : p x
    · simp [findFirst, hx] at h
    · rcases List.mem_cons.mp hb with hb | hb
      · simpa [hb] using hx
      · exact ih (i + 1) (by simpa [findFirst, hx] using h) b hb

/-- C10: when Zone::alloc returns None, the top-level scan found no
slot satisfying larger_than(order); the function returns before any
mutation, so the zone is unchanged. -/
theorem c10_alloc_fail_atomic :
    ∀ (z : Zone) (order : Nat) (z' : Zone),
      z.alloc order = .fail z' →
      z' = z ∧ ∀ b ∈ z.order_list.getD MAX_ORDER [], b.larger_than order = false := by
  intro z order z' h
  unfold Zone.alloc at h
  cases hf : findFirst (fun blk => blk.larger_than order) (z.order_list.getD MAX_ORDER []) 0 with
  | none =>
    simp only [hf, AllocResult.fail.injEq] at h
    exact ⟨h.symm, findFirst_none _ 0 hf⟩
  | some idx0 =>
    simp only [hf] at h
    cases hd : z.descend order idx0 (MAX_ORDER - order) with
    | none => simp only [hd] at h; cases h
    | some idx => simp only [hd] at h; cases h

/-- Witness for C10 at a concrete input: a one-page zone has no block
of order 1, so alloc(1) fails and the zone is returned untouched. -/
theorem c10_alloc_fail_atomic_witness :
    Zone.new 0 PAGE_SIZE (zeroSlab 1) = Zone.new 0 PAGE_SIZE (zeroSlab 1) ∧
    ∀ b ∈ (Zone.new 0 PAGE_SIZE (zeroSlab 1)).order_list.getD MAX_ORDER [],
      b.larger_than 1 = false :=
  c10_alloc_fail_atomic _ 1 _ rfl

lemma allocFrameRegions_none : ∀ rs : List Region, (∀ r ∈ rs, r.size < 4096) →
    allocFrameRegions rs = none := by
  intro rs
  induction rs with
  | nil => intro _; rfl
  | cons rg rest ih =>
    intro h
    have h1 : rg.size < 4096 := h rg (List.mem_cons_self _ _)
    simp [allocFrameRegions, Nat.not_le.mpr h1,
      ih fun r hr => h r (List.mem_cons_of_mem _ hr)]

lemma allocFrameRegions_first :
    ∀ (pre : List Region) (rg : Region) (post : List Region),
      (∀ r ∈ pre, r.size < 4096) → 4096 ≤ rg.size →
      allocFrameRegions (pre ++ rg :: post) =
        some (rg.addr / 4096 * 4096,
          pre ++ (if rg.size - 4096 = 0 then post
                  else { addr := rg.addr + 4096, size := rg.size - 4096 } :: post)) := by
  intro pre
  induction pre with
  | nil =>
    intro rg post _ hrg
    simp only [List.nil_append, allocFrameRegions, if_pos hrg]
  | cons p ps ih =>
    intro rg post hpre hrg
    have h1 : p.size < 4096 := hpre p (List.mem_cons_self _ _)
    simp only [List.cons_append, allocFrameRegions, if_neg (Nat.not_le.mpr h1),
      List.append_eq]
    rw [ih rg post (fun r hr => hpre r (List.mem_cons_of_mem _ hr)) hrg]
    rfl

/-- C7: MemoryMap::allocate_frame scans for the first region of at
least one page, returns the frame at its head, advances it by one
page (removing it when empty) and decrements num_pages; it panics
when no region is large enough; and the concrete three-call scenario
from the claim. -/
theorem c7_allocate_frame :
    (∀ m : MemoryMap, (∀ rg ∈ m.regions, rg.size < 4096) → m.allocate_frame = none) ∧
    (∀ (pre post : List Region) (rg : Region) (np : Nat),
      (∀ r ∈ pre, r.size < 4096) → 4096 ≤ rg.size →
      MemoryMap.allocate_frame ⟨pre ++ rg :: post, np⟩ =
        some (rg.addr / 4096 * 4096,
          ⟨pre ++ (if rg.size - 4096 = 0 then post
                   else { addr := rg.addr + 4096, size := rg.size - 4096 } :: post),
           np - 1⟩)) ∧
    (MemoryMap.allocate_frame ⟨[⟨0x1000, 0x1000⟩, ⟨0x3000, 0x2000⟩], 3⟩ =
        some (0x1000, ⟨[⟨0x3000, 0x2000⟩], 2⟩) ∧
      MemoryMap.allocate_frame ⟨[⟨0x3000, 0x2000⟩], 2⟩ =
        some (0x3000, ⟨[⟨0x4000, 0x1000⟩], 1⟩) ∧
      MemoryMap.allocate_frame ⟨[⟨0x4000, 0x1000⟩], 1⟩ =
        some (0x4000, ⟨[], 0⟩)) := by
  refine ⟨?_, ?_, by decide⟩
  · intro m h
    unfold MemoryMap.allocate_frame
    rw [allocFrameRegions_none m.regions h]
    rfl
  · intro pre post rg np hpre hrg
    unfold MemoryMap.allocate_frame
    rw [allocFrameRegions_first pre rg post hpre hrg]
    rfl

/-- Witness for C7 at concrete inputs: the empty map is out of
memory, and a single two-page region serves a frame from its head. -/
theorem c7_allocate_frame_witness :
    MemoryMap.allocate_frame ⟨[], 5⟩ = none ∧
    MemoryMap.allocate_frame ⟨[⟨4096, 8192⟩], 2⟩ = some (4096, ⟨[⟨8192, 4096⟩], 1⟩) := by
  constructor
  · exact c7_allocate_frame.1 ⟨[], 5⟩ (by simp)
  · have h := c7_allocate_frame.2.1 [] [] ⟨4096, 8192⟩ 2 (by simp) (by norm_num)
    simpa using h

/-- C8: RegionBumpAllocator::alloc succeeds exactly when the aligned
advanced cursor stays within the region, returning the kernel-virtual
pointer of the aligned start and recording the aligned new offset,
and fails leaving the cursor unchanged otherwise; and the concrete
four-call scenario from the claim. -/
theorem c8_region_bump_alloc :
    (∀ (rba : RegionBumpAllocator) (po sz align : Nat),
      (alignUp (rba.offset + sz) align ≤ rba.size →
        rba.alloc po sz align =
          some (rba.start + alignUp rba.offset align + po,
                { rba with offset := alignUp (rba.offset + sz) align })) ∧
      (rba.size < alignUp (rba.offset + sz) align → rba.alloc po sz align = none)) ∧
    (∀ po : Nat,
      (RegionBumpAllocator.fromRegion ⟨0x1000, 4096⟩).alloc po 4 4 =
          some (0x1000 + po, ⟨0x1000, 4096, 4⟩) ∧
        (⟨0x1000, 4096, 4⟩ : RegionBumpAllocator).alloc po 1 1 =
          some (0x1004 + po, ⟨0x1000, 4096, 5⟩) ∧
        (⟨0x1000, 4096, 5⟩ : RegionBumpAllocator).alloc po 4 4 =
          some (0x1008 + po, ⟨0x1000, 4096, 12⟩) ∧
        (⟨0x1000, 4096, 12⟩ : RegionBumpAllocator).alloc po 4096 4 = none) := by
  constructor
  · intro rba po sz align
    constructor
    · intro h
      unfold RegionBumpAllocator.alloc
      rw [if_neg (Nat.not_lt.mpr h)]
    · intro h
      unfold RegionBumpAllocator.alloc
      rw [if_pos h]
  · intro po
    refine ⟨?_, ?_, ?_, ?_⟩ <;>
      simp [RegionBumpAllocator.alloc, RegionBumpAllocator.fromRegion, alignUp]

/-- Witness for C8 at a concrete input: a 16-byte region accepts an
aligned 8-byte allocation and rejects one that would overrun. -/
theorem c8_region_bump_alloc_witness :
    (⟨0, 16, 0⟩ : RegionBumpAllocator).alloc 7 8 8 = some (0 + 0 + 7, ⟨0, 16, 8⟩) ∧
    (⟨0, 16, 12⟩ : RegionBumpAllocator).alloc 7 8 8 = none := by
  constructor
  · exact (c8_region_bump_alloc.1 ⟨0, 16, 0⟩ 7 8 8).1 (by norm_num [alignUp])
  · exact (c8_region_bump_alloc.1 ⟨0, 16, 12⟩ 7 8 8).2 (by norm_num [alignUp])

lemma freeZones_none : ∀ (zs : List Zone) (s e : Nat),
    (∀ z ∈ zs, zoneContains z s e = false) →
    PhysAllocator.freeZones s e zs = none := by
  intro zs s e
  induction zs with
  | nil => intro _; rfl
  | cons z rest ih =>
    intro h
    have h1 := h z (List.mem_cons_self _ _)
    simp [PhysAllocator.freeZones, h1,
      ih fun z' hz => h z' (List.mem_cons_of_mem _ hz)]

lemma freeZones_first : ∀ (pre : List Zone) (z : Zone) (post : List Zone) (s e : Nat),
    (∀ z' ∈ pre, zoneContains z' s e = false) → zoneContains z s e = true →
    PhysAllocator.freeZones s e (pre ++ z :: post) =
      (z.free s e).map (fun z' => pre ++ z' :: post) := by
  intro pre
  induction pre with
  | nil => intro z post s e _ hz; simp [PhysAllocator.freeZones, hz]
  | cons p ps ih =>
    intro z post s e hpre hz
    have h1 := hpre p (List.mem_cons_self _ _)
    simp [PhysAllocator.freeZones, h1,
      ih z post s e (fun q hq => hpre q (List.mem_cons_of_mem _ hq)) hz,
      Zone.free_eq_none]

lemma allocZones_oom_iff : ∀ (zs : List Zone) (order : Nat),
    PhysAllocator.allocZones order zs = .oom ↔
      ∀ z ∈ zs, (z.alloc order).isFail = true := by
  intro zs order
  induction zs with
  | nil => simp [PhysAllocator.allocZones]
  | cons z rest ih =>
    constructor
    · intro h
      simp only [PhysAllocator.allocZones] at h
      cases hz : z.alloc order with
      | fail z' =>
        simp only [hz] at h
        intro q hq
        rcases List.mem_cons.mp hq with rfl | hq
        · simp [hz, AllocResult.isFail]
        · refine (ih.mp ?_) q hq
          cases hr : PhysAllocator.allocZones order rest with
          | oom => rfl
          | stuckZone => simp only [hr] at h; cases h
          | ok zs' s e => simp only [hr] at h; cases h
      | ok z' s e => simp only [hz] at h; cases h
      | stuck => simp only [hz] at h; cases h
    · intro h
      have hz1 : (z.alloc order).isFail = true := h z (List.mem_cons_self _ _)
      cases hzz : z.alloc order with
      | fail z' =>
        have hrest : PhysAllocator.allocZones order rest = .oom :=
          ih.mpr fun q hq => h q (List.mem_cons_of_mem _ hq)
        simp [PhysAllocator.allocZones, hzz, hrest]
      | ok z' s e => rw [hzz] at hz1; simp [AllocResult.isFail] at hz1
      | stuck => rw [hzz] at hz1; simp [AllocResult.isFail] at hz1

/-- C9: PhysAllocator::free delivers the range to the first zone
whose pages contain it and panics when no zone does;
PhysAllocator::alloc tries every zone in order and reaches the
out-of-memory panic exactly when every zone has failed. -/
theorem c9_phys_allocator_routing :
    (∀ (zs : List Zone) (s e : Nat),
      (∀ z ∈ zs, zoneContains z s e = false) →
      PhysAllocator.freeZones s e zs = none) ∧
    (∀ (pre : List Zone) (z : Zone) (post : List Zone) (s e : Nat),
      (∀ z' ∈ pre, zoneContains z' s e = false) → zoneContains z s e = true →
      PhysAllocator.freeZones s e (pre ++ z :: post) =
        (z.free s e).map (fun z' => pre ++ z' :: post)) ∧
    (∀ (zs : List Zone) (order : Nat),
      PhysAllocator.allocZones order zs = .oom ↔
        ∀ z ∈ zs, (z.alloc order).isFail = true) :=
  ⟨freeZones_none, freeZones_first, allocZones_oom_iff⟩

/-- Witness for C9 at concrete inputs: freeing an unmanaged range
panics, and freeing a contained range is routed to the owning zone. -/
theorem c9_phys_allocator_routing_witness :
    PhysAllocator.freeZones 0 1 [] = none ∧
    PhysAllocator.freeZones 0 1 [Zone.new 0 PAGE_SIZE (zeroSlab 1)] =
      ((Zone.new 0 PAGE_SIZE (zeroSlab 1)).free 0 1).map
        (fun z' => [] ++ z' :: []) := by
  constructor
  · exact c9_phys_allocator_routing.1 [] 0 1 (by simp)
  · exact c9_phys_allocator_routing.2.1 [] (Zone.new 0 PAGE_SIZE (zeroSlab 1)) [] 0 1
      (by simp) rfl

lemma sub64_exact {x y : Nat} (hyx : y ≤ x) (hx : x < U64) : sub64 x y = x - y := by
  unfold sub64
  rw [Nat.mod_eq_of_lt hx, Nat.mod_eq_of_lt (lt_of_le_of_lt hyx hx)]
  have h1 : x + (U64 - y) = U64 + (x - y) := by omega
  rw [h1, Nat.add_mod_left, Nat.mod_eq_of_lt (by omega)]

lemma maxOrderBlocks_le (T : Nat) (h : 1 ≤ T) : maxOrderBlocks T ≤ T := by
  unfold maxOrderBlocks alignUp MAX_ORDER_PAGES
  rw [Nat.mul_div_cancel _ (by norm_num)]
  calc (T + 2048 - 1) / 2048 ≤ 2048 * T / 2048 :=
        Nat.div_le_div_right (by omega)
    _ = T := Nat.mul_div_cancel_left _ (by norm_num)

lemma blocks_in_region64_exact (T : Nat) (hT : 4096 * T < U64) (h3 : 1 ≤ T) :
    blocks_in_region64 T = blocks_in_region T := by
  have hTU : T + 2047 < U64 := by
    have : T + 2047 ≤ 4096 * T := by omega
    omega
  have hmob : maxOrderBlocks T ≤ T := maxOrderBlocks_le T h3
  unfold blocks_in_region64 blocks_in_region mul64 alignUp64 maxOrderBlocks alignUp
      MAX_ORDER_PAGES MAX_ORDER
  rw [Nat.mod_eq_of_lt (by omega : T + (2048 - 1) < U64)]
  have heq : T + (2048 - 1) = T + 2048 - 1 := by omega
  rw [heq]
  apply Nat.mod_eq_of_lt
  have hmob' : (T + 2048 - 1) / 2048 * 2048 / 2048 ≤ T := by
    have := maxOrderBlocks_le T h3
    unfold maxOrderBlocks alignUp MAX_ORDER_PAGES at this
    exact this
  calc (T + 2048 - 1) / 2048 * 2048 / 2048 * (2 ^ (11 + 1) - 1)
      ≤ T * (2 ^ (11 + 1) - 1) := Nat.mul_le_mul_right _ hmob'
    _ < U64 := by
        have : T * (2 ^ (11 + 1) - 1) ≤ 4095 * T := by ring_nf; omega
        omega

/-- C6 counterexample: at T = 3 with the modelled PageInfo size
W = 8, the u64 computation of usable_pages underflows (the quotient
is 1, so subtracting 2 wraps to 2^64 - 1) and the claimed sizing
inequality fails: its right-hand side (3 - usable_pages 3) * 4096 is
0 while the left-hand side is enormous. -/
theorem c6_sizing_counterexample :
    usable_pages 3 = 2 ^ 64 - 1 ∧
    ¬ (usable_pages 3 * PageInfoSize + blocks_in_region64 3 ≤
        (3 - usable_pages 3) * 4096) := by
  constructor
  · decide
  · decide

/-- C6 amended: for every T at least 3 and every PageInfo size W for
which the u64 computation of usable_pages stays in range (4096 T
below 2^64 and the quotient before the final minus 2 at least 2), the
bookkeeping fits in the reserved prefix:
usable * W + blocks_in_region T is at most (T - usable) * 4096. -/
theorem c6_sizing_closure (W T : Nat) (h3 : 3 ≤ T) (hT : 4096 * T < U64)
    (hQ : 2 ≤ (4096 * T - blocks_in_region T) / (W + 4096)) :
    usable_pages64 W T * W + blocks_in_region T ≤
      (T - usable_pages64 W T) * 4096 := by
  have h1 : 1 ≤ T := by omega
  have hmob : maxOrderBlocks T ≤ T := maxOrderBlocks_le T h1
  have hBle : blocks_in_region T ≤ 4095 * T := by
    unfold blocks_in_region
    calc maxOrderBlocks T * (2 ^ (MAX_ORDER + 1) - 1)
        ≤ T * (2 ^ (MAX_ORDER + 1) - 1) := Nat.mul_le_mul_right _ hmob
      _ = 4095 * T := by norm_num [MAX_ORDER]; ring
  have hB4096 : blocks_in_region T ≤ 4096 * T := by omega
  have hsub1 : sub64 (mul64 PAGE_SIZE T) (blocks_in_region64 T) =
      4096 * T - blocks_in_region T := by
    rw [blocks_in_region64_exact T hT h1]
    have hm : mul64 PAGE_SIZE T = 4096 * T := by
      unfold mul64 PAGE_SIZE
      exact Nat.mod_eq_of_lt hT
    rw [hm]
    exact sub64_exact hB4096 hT
  have hup : usable_pages64 W T = (4096 * T - blocks_in_region T) / (W + 4096) - 2 := by
    unfold usable_pages64
    rw [hsub1]
    have hQlt : (4096 * T - blocks_in_region T) / (W + PAGE_SIZE) < U64 :=
      lt_of_le_of_lt (Nat.div_le_self _ _) (by omega)
    have : (PAGE_SIZE : Nat) = 4096 := rfl
    rw [this] at hQlt ⊢
    exact sub64_exact hQ hQlt
  rw [hup]
  set B := blocks_in_region T with hBdef
  set Q := (4096 * T - B) / (W + 4096) with hQdef
  have hQmul : Q * (W + 4096) ≤ 4096 * T - B := Nat.div_mul_le_self _ _
  have hQT : Q ≤ T := by
    calc Q ≤ (4096 * T - B) / 4096 :=
          Nat.div_le_div_left (by omega) (by norm_num)
      _ ≤ 4096 * T / 4096 := Nat.div_le_div_right (by omega)
      _ = T := Nat.mul_div_cancel_left _ (by norm_num)
  have hUmul : (Q - 2) * (W + 4096) ≤ 4096 * T - B :=
    le_trans (Nat.mul_le_mul_right _ (Nat.sub_le Q 2)) hQmul
  have hexp : (Q - 2) * (W + 4096) = (Q - 2) * W + 4096 * (Q - 2) := by ring
  rw [hexp] at hUmul
  have hUT : Q - 2 ≤ T := le_trans (Nat.sub_le _ _) hQT
  generalize hUW : (Q - 2) * W = x at hUmul ⊢
  omega

/-- Witness for C6 at a concrete input: T = 4096 pages and the
modelled PageInfo size W = 8 satisfy the range conditions, and the
sizing inequality holds there. -/
theorem c6_sizing_closure_witness :
    usable_pages64 8 4096 * 8 + blocks_in_region 4096 ≤
      (4096 - usable_pages64 8 4096) * 4096 :=
  c6_sizing_closure 8 4096 (by norm_num) (by decide) (by decide)

lemma log2ceilAux_le (n : Nat) : ∀ f k j : Nat, k ≤ j → j ≤ k + f → n ≤ 2 ^ j →
    log2ceilAux n k f ≤ j := by
  intro f
  induction f with
  | zero => intro k j hkj _ _; simpa [log2ceilAux] using hkj
  | succ f ih =>
    intro k j hkj hjk hn
    by_cases hk : n ≤ 2 ^ k
    · simpa [log2ceilAux, hk] using hkj
    · have hkj1 : k + 1 ≤ j := by
        rcases Nat.eq_or_lt_of_le hkj with rfl | h
        · exact absurd hn hk
        · exact h
      simp only [log2ceilAux, if_neg hk]
      exact ih (k + 1) j hkj1 (by omega) hn

lemma log2ceilAux_le_add (n : Nat) : ∀ f k : Nat, log2ceilAux n k f ≤ k + f := by
  intro f
  induction f with
  | zero => intro k; simp [log2ceilAux]
  | succ f ih =>
    intro k
    by_cases hk : n ≤ 2 ^ k
    · simp [log2ceilAux, hk]
    · simp only [log2ceilAux, if_neg hk]
      calc log2ceilAux n (k + 1) f ≤ k + 1 + f := ih (k + 1)
        _ = k + (f + 1) := by omega

lemma log2ceilAux_spec (n : Nat) : ∀ f k : Nat, log2ceilAux n k f < k + f →
    n ≤ 2 ^ log2ceilAux n k f := by
  intro f
  induction f with
  | zero => intro k h; simp [log2ceilAux] at h
  | succ f ih =>
    intro k h
    by_cases hk : n ≤ 2 ^ k
    · simp [log2ceilAux, hk]
    · simp only [log2ceilAux, if_neg hk] at h ⊢
      exact ih (k + 1) (by omega)

lemma log2ceil_le {n k : Nat} (hk : k ≤ 64) (h : n ≤ 2 ^ k) : log2ceil n ≤ k :=
  log2ceilAux_le n 64 0 k (Nat.zero_le _) (by omega) h

lemma log2ceil_le_64 (n : Nat) : log2ceil n ≤ 64 := log2ceilAux_le_add n 64 0

lemma log2ceil_spec (n : Nat) (h : log2ceil n < 64) : n ≤ 2 ^ log2ceil n :=
  log2ceilAux_spec n 64 0 (by simpa [log2ceil] using h)

lemma u64tz_pow {k : Nat} (hk : k ≤ 64) : u64tz (2 ^ k) = k := by
  have hne : (2 : Nat) ^ k ≠ 0 := (Nat.pow_pos (by norm_num)).ne'
  unfold u64tz
  rw [if_neg hne, show (2 : Nat) ^ k = 1 * 2 ^ k from (one_mul _).symm,
    tzFuel_mul_pow k 64 1 (le_refl 1) hk]
  cases hf : 64 - k with
  | zero => simp [tzFuel]
  | succ m => simp [tzFuel]

lemma lo_eq (n : Nat) :
    min (u64tz (nextPow2 n)) (MAX_ORDER + 1) = min (log2ceil n) 12 := by
  unfold nextPow2
  rw [u64tz_pow (log2ceil_le_64 n)]
  rfl

lemma replicate_getD : ∀ (n i : Nat), (List.replicate n Block.Used).getD i .Used = .Used := by
  intro n
  induction n with
  | zero => intro i; simp
  | succ n ih =>
    intro i
    cases i with
    | zero => simp [List.replicate]
    | succ i => simp [List.replicate, ih i]

lemma fillFirst_length (b : Block) : ∀ (l : List Block) (n : Nat),
    (fillFirst b n l).length = l.length := by
  intro l
  induction l with
  | nil => intro n; cases n <;> simp [fillFirst]
  | cons x xs ih =>
    intro n
    cases n with
    | zero => simp [fillFirst]
    | succ n => simp [fillFirst, ih n]

lemma fillFirst_getD (b : Block) : ∀ (l : List Block) (n i : Nat) (d : Block),
    (fillFirst b n l).getD i d = if i < n ∧ i < l.length then b else l.getD i d := by
  intro l
  induction l with
  | nil => intro n i d; cases n <;> simp [fillFirst]
  | cons x xs ih =>
    intro n i d
    cases n with
    | zero => simp [fillFirst]
    | succ n =>
      cases i with
      | zero => simp [fillFirst]
      | succ i =>
        simp only [fillFirst, List.getD_cons_succ]
        rw [ih n i d]
        simp [Nat.succ_lt_succ_iff]

lemma setHead_getD (b : Block) : ∀ (l : List Block) (i : Nat) (d : Block),
    (setHead b l).getD i d = if i = 0 ∧ l ≠ [] then b else l.getD i d := by
  intro l i d
  cases l with
  | nil => simp [setHead]
  | cons x xs => cases i <;> simp [setHead]

/-- The value of blocks_in_order after k halving steps of Zone::new. -/
def bioAfter : Nat → Nat → Nat
  | 0, bio => bio
  | k + 1, bio => bioAfter k (bioStep bio)

lemma initFillFrom_length : ∀ (ls : List (List Block)) (o bio : Nat),
    (initFillFrom o bio ls).length = ls.length := by
  intro ls
  induction ls with
  | nil => intro o bio; rfl
  | cons l ls' ih => intro o bio; simp [initFillFrom, ih]

lemma initFillFrom_getD : ∀ (ls : List (List Block)) (o bio k : Nat),
    (initFillFrom o bio ls).getD k [] =
      fillFirst (Block.from_order (o + k)) (bioAfter k bio) (ls.getD k []) := by
  intro ls
  induction ls with
  | nil => intro o bio k; cases k <;> simp [initFillFrom, fillFirst]
  | cons l ls' ih =>
    intro o bio k
    cases k with
    | zero => simp [initFillFrom, bioAfter]
    | succ k =>
      simp only [initFillFrom, List.getD_cons_succ]
      rw [ih (o + 1) (bioStep bio) k]
      have h1 : o + 1 + k = o + (k + 1) := by omega
      rw [h1]
      rfl

lemma overwriteFrom_length (b : Block) : ∀ (ls : List (List Block)) (lo : Nat),
    (overwriteFrom b lo ls).length = ls.length := by
  intro ls
  induction ls with
  | nil => intro lo; cases lo <;> rfl
  | cons l ls' ih =>
    intro lo
    cases lo with
    | zero => simp [overwriteFrom, ih]
    | succ lo => simp [overwriteFrom, ih]

lemma overwriteFrom_getD (b : Block) : ∀ (ls : List (List Block)) (lo k : Nat),
    (overwriteFrom b lo ls).getD k [] =
      if lo ≤ k then setHead b (ls.getD k []) else ls.getD k [] := by
  intro ls
  induction ls with
  | nil =>
    intro lo k
    cases lo <;> simp [overwriteFrom, setHead]
  | cons l ls' ih =>
    intro lo k
    cases lo with
    | zero =>
      cases k with
      | zero => simp [overwriteFrom]
      | succ k =>
        simp only [overwriteFrom, List.getD_cons_succ]
        rw [ih 0 k]
        simp
    | succ lo =>
      cases k with
      | zero => simp [overwriteFrom, Nat.succ_ne_zero]
      | succ k =>
        simp only [overwriteFrom, List.getD_cons_succ]
        rw [ih lo k]
        simp [Nat.succ_le_succ_iff]

lemma split_region_length (n : Nat) (blocks : List Block) :
    (split_region n blocks).length = 12 := by
  simp [split_region, MAX_ORDER]

lemma split_region_getD_zeroSlab (n k : Nat) (hk : k < 12) :
    (split_region n (zeroSlab n)).getD k [] =
      List.replicate (maxOrderBlocks n * 2 ^ (11 - k)) Block.Used := by
  have hP1 : 1 ≤ 2 ^ (11 - k) := Nat.one_le_two_pow
  have hP : 2 ^ (11 - k) ≤ 2048 := by
    calc (2 : Nat) ^ (11 - k) ≤ 2 ^ 11 := Nat.pow_le_pow_right (by norm_num) (by omega)
      _ = 2048 := by norm_num
  unfold split_region zeroSlab blocks_in_region
  rw [List.getD_eq_getElem?_getD, List.getElem?_map]
  rw [show MAX_ORDER + 1 = 12 from rfl, List.getElem?_range hk]
  simp only [Option.map_some', Option.getD_some, show MAX_ORDER = 11 from rfl]
  rw [List.drop_replicate, List.take_replicate]
  congr 1
  set mob := maxOrderBlocks n with hmob
  set P := 2 ^ (11 - k) with hPdef
  have hsum : mob * (P - 1) + mob * P ≤ mob * (2 ^ (11 + 1) - 1) := by
    rw [← Nat.mul_add]
    apply Nat.mul_le_mul_left
    have : (2 : Nat) ^ (11 + 1) - 1 = 4095 := by norm_num
    omega
  apply min_eq_left
  omega

lemma zone_new_length (addr size : Nat) (blocks : List Block) :
    (Zone.new addr size blocks).order_list.length = 12 := by
  simp [Zone.new, overwriteFrom_length, initFillFrom_length, split_region_length]

lemma mob_pos (n : Nat) (hn : 1 ≤ n) : 1 ≤ maxOrderBlocks n := by
  unfold maxOrderBlocks alignUp MAX_ORDER_PAGES
  rw [Nat.mul_div_cancel _ (by norm_num)]
  have : 2048 ≤ n + 2048 - 1 := by omega
  calc 1 = 2048 / 2048 := by norm_num
    _ ≤ (n + 2048 - 1) / 2048 := Nat.div_le_div_right this

/-- Slot-level characterisation of the tree built by Zone::new on a
zeroed slab: the head slot of every level at or above
largest_order reads LargestFreeOrder(largest_order); below that, the
first blocks_in_order slots of level L read LargestFreeOrder(L); all
other slots read Used. -/
lemma zone_new_slot (addr n L i : Nat) (hn : 1 ≤ n) (hL : L < 12) :
    (Zone.new addr (PAGE_SIZE * n) (zeroSlab n)).slot L i =
      if min (log2ceil n) 12 ≤ L ∧ i = 0 then
        Block.from_order (min (log2ceil n) 12)
      else if i < bioAfter L n ∧ i < maxOrderBlocks n * 2 ^ (11 - L) then
        Block.from_order L
      else .Used := by
  have hnum : PAGE_SIZE * n / PAGE_SIZE = n :=
    Nat.mul_div_cancel_left n (by norm_num [PAGE_SIZE])
  have hlenpos : 0 < maxOrderBlocks n * 2 ^ (11 - L) :=
    Nat.mul_pos (mob_pos n hn) (Nat.pos_pow_of_pos _ (by norm_num))
  unfold Zone.new Zone.slot
  simp only [hnum, lo_eq]
  rw [overwriteFrom_getD, initFillFrom_getD, split_region_getD_zeroSlab n L hL]
  rw [Nat.zero_add]
  by_cases hlo : min (log2ceil n) 12 ≤ L
  · rw [if_pos hlo, setHead_getD]
    have hne : fillFirst (Block.from_order L) (bioAfter L n)
        (List.replicate (maxOrderBlocks n * 2 ^ (11 - L)) Block.Used) ≠ [] := by
      intro hc
      have hlen := fillFirst_length (Block.from_order L)
        (List.replicate (maxOrderBlocks n * 2 ^ (11 - L)) Block.Used) (bioAfter L n)
      rw [hc, List.length_nil, List.length_replicate] at hlen
      exact absurd hlen.symm (Nat.ne_of_gt hlenpos)
    by_cases hi : i = 0
    · rw [if_pos ⟨hi, hne⟩, if_pos ⟨hlo, hi⟩]
    · rw [if_neg (by tauto), if_neg (by tauto)]
      rw [fillFirst_getD]
      simp only [List.length_replicate]
      by_cases hfill : i < bioAfter L n ∧ i < maxOrderBlocks n * 2 ^ (11 - L)
      · rw [if_pos hfill, if_pos hfill]
      · rw [if_neg hfill, if_neg hfill, replicate_getD]
  · rw [if_neg hlo, if_neg (by tauto)]
    rw [fillFirst_getD]
    simp only [List.length_replicate]
    by_cases hfill : i < bioAfter L n ∧ i < maxOrderBlocks n * 2 ^ (11 - L)
    · rw [if_pos hfill, if_pos hfill]
    · rw [if_neg hfill, if_neg hfill, replicate_getD]

/-- Scan one level for a free-readable slot whose page range
contains p; i is the index of the first listed slot. -/
def anyFreeCovering (p L : Nat) : List Block → Nat → Bool
  | [], _ => false
  | b :: bs, i =>
      (decide (i * 2 ^ L ≤ p) && decide (p < (i + 1) * 2 ^ L) &&
        (match b with | .Used => false | .LargestFreeOrder _ => true)) ||
        anyFreeCovering p L bs (i + 1)

/-- Whether the zone-relative page p lies inside the page range of
some slot of the tree that reads as free (the aggregate free set in
the sense of the claim). -/
def Zone.pageInFreeSlot (z : Zone) (p : Nat) : Bool :=
  (List.range (MAX_ORDER + 1)).any fun L =>
    anyFreeCovering p L (z.order_list.getD L []) 0

/-- C3 counterexample: in a fresh one-page zone the head slot of
every level reads LargestFreeOrder(0), so page 1 (and indeed every
page below 2048) lies in the page range of a free-readable slot,
although the zone has only page 0: the union of the page ranges of
all free-readable slots is strictly larger than [0, num_pages). -/
theorem c3_union_counterexample :
    (Zone.new 0 (PAGE_SIZE * 1) (zeroSlab 1)).num_pages = 1 ∧
    ¬ (1 : Nat) < 1 ∧
    (Zone.new 0 (PAGE_SIZE * 1) (zeroSlab 1)).pageInFreeSlot 1 = true := by
  refine ⟨rfl, by omega, ?_⟩
  rfl

lemma log2ceil_pos {n : Nat} (hn : 2 ≤ n) : 1 ≤ log2ceil n := by
  by_contra h
  have h0 : log2ceil n = 0 := by omega
  have := log2ceil_spec n (by omega)
  rw [h0] at this
  simp at this
  omega

lemma n_le_len (n : Nat) : n ≤ maxOrderBlocks n * 2 ^ (11 - 0) := by
  unfold maxOrderBlocks alignUp MAX_ORDER_PAGES
  rw [Nat.mul_div_cancel _ (by norm_num)]
  have hdm := Nat.div_add_mod (n + 2048 - 1) 2048
  have hr := Nat.mod_lt (n + 2048 - 1) (by norm_num : (0 : Nat) < 2048)
  have h2 : (2 : Nat) ^ (11 - 0) = 2048 := by norm_num
  rw [h2]
  omega

/-- C3 (amended): after Zone::new over a zeroed slab with num_pages
at least 1, the set of pages whose level-0 slot reads free is exactly
[0, num_pages), and every overflow level L with 2^L > num_pages has
its head slot equal to
LargestFreeOrder(min(MAX_ORDER, ceil(log2 num_pages))). -/
theorem c3_new_free_set (addr n : Nat) (hn : 1 ≤ n) :
    (∀ i, ((Zone.new addr (PAGE_SIZE * n) (zeroSlab n)).slot 0 i ≠ .Used) ↔ i < n) ∧
    (∀ L, L < 12 → n < 2 ^ L →
      (Zone.new addr (PAGE_SIZE * n) (zeroSlab n)).slot L 0 =
        Block.from_order (min MAX_ORDER (log2ceil n))) := by
  constructor
  · intro i
    rw [zone_new_slot addr n 0 i hn (by norm_num)]
    have hb0 : bioAfter 0 n = n := rfl
    rw [hb0]
    rcases Nat.lt_or_ge n 2 with h1 | h2
    · have hn1 : n = 1 := by omega
      subst hn1
      have hl1 : log2ceil 1 = 0 := rfl
      rw [hl1]
      by_cases hi : i = 0
      · subst hi
        simp [Block.from_order]
      · rw [if_neg (by tauto)]
        rw [if_neg (by omega)]
        simp
        omega
    · have hpos := log2ceil_pos h2
      rw [if_neg (by omega)]
      have hlen := n_le_len n
      by_cases hi : i < n
      · rw [if_pos ⟨hi, by omega⟩]
        simp [Block.from_order, hi]
      · rw [if_neg (by tauto)]
        simp
        omega
  · intro L hL h2L
    rw [zone_new_slot addr n L 0 hn hL]
    have hle : log2ceil n ≤ L := log2ceil_le (by omega) (le_of_lt h2L)
    rw [if_pos ⟨by omega, rfl⟩]
    have hM : MAX_ORDER = 11 := rfl
    congr 1
    omega

/-- Witness for C3's amended statement at the concrete one-page
zone. -/
theorem c3_new_free_set_witness :
    (∀ i, ((Zone.new 0 (PAGE_SIZE * 1) (zeroSlab 1)).slot 0 i ≠ .Used) ↔ i < 1) ∧
    (∀ L, L < 12 → 1 < 2 ^ L →
      (Zone.new 0 (PAGE_SIZE * 1) (zeroSlab 1)).slot L 0 =
        Block.from_order (min MAX_ORDER (log2ceil 1))) :=
  c3_new_free_set 0 1 (by norm_num)

/-- The parent relation at one internal pair of the buddy tree,
weakened by also accepting a Used parent (the state below an
allocated block is stale by design). -/
def okPair (z : Zone) (L i : Nat) : Prop :=
  z.slot (L + 1) i = .Used ∨
    z.slot (L + 1) i = Block.parent_state (z.slot L (2 * i)) (z.slot L (2 * i + 1))

/-- The weakened tree-consistency invariant, at every internal pair. -/
def weakInv (z : Zone) : Prop := ∀ L i, okPair z L i

lemma getD_set_ne {α : Type} : ∀ (l : List α) (j k : Nat) (a d : α), k ≠ j →
    (l.set j a).getD k d = l.getD k d := by
  intro l
  induction l with
  | nil => intro j k a d _; rfl
  | cons x xs ih =>
    intro j k a d h
    cases j with
    | zero =>
      cases k with
      | zero => exact absurd rfl h
      | succ k => simp [List.set]
    | succ j =>
      cases k with
      | zero => simp [List.set]
      | succ k =>
        simp only [List.set, List.getD_cons_succ]
        exact ih j k a d (by omega)

lemma getD_set_self {α : Type} : ∀ (l : List α) (j : Nat) (a d : α),
    (l.set j a).getD j d = if j < l.length then a else d := by
  intro l
  induction l with
  | nil => intro j a d; simp
  | cons x xs ih =>
    intro j a d
    cases j with
    | zero => simp [List.set]
    | succ j =>
      simp only [List.set, List.getD_cons_succ, List.length_cons]
      rw [ih j a d]
      simp [Nat.succ_lt_succ_iff]

lemma slot_setSlot_ne (z : Zone) (L i : Nat) (b : Block) (L' i' : Nat)
    (h : L' ≠ L ∨ i' ≠ i) : (z.setSlot L i b).slot L' i' = z.slot L' i' := by
  unfold Zone.setSlot Zone.slot
  simp only
  rcases h with h | h
  · rw [getD_set_ne _ _ _ _ _ h]
  · by_cases hL : L' = L
    · subst hL
      by_cases hlen : L' < z.order_list.length
      · rw [getD_set_self, if_pos hlen, getD_set_ne _ _ _ _ _ h]
      · rw [getD_set_self, if_neg hlen,
          List.getD_eq_default _ _ (by omega : z.order_list.length ≤ L')]
    · rw [getD_set_ne _ _ _ _ _ hL]

lemma slot_setSlot_self (z : Zone) (L i : Nat) (b : Block) :
    (z.setSlot L i b).slot L i = b ∨ (z.setSlot L i b).slot L i = .Used := by
  unfold Zone.setSlot Zone.slot
  simp only
  by_cases hL : L < z.order_list.length
  · rw [getD_set_self, if_pos hL]
    by_cases hi : i < (z.order_list.getD L []).length
    · left
      rw [getD_set_self, if_pos (by simpa [List.length_set] using hi)]
    · right
      rw [getD_set_self, if_neg (by simpa [List.length_set] using hi)]
  · right
    rw [getD_set_self, if_neg hL]
    rfl

lemma okPair_transfer (z : Zone) (Lw iw : Nat) (b : Block) (L i : Nat)
    (hp : ¬(Lw = L + 1 ∧ iw = i)) (hc : ¬(Lw = L ∧ (iw = 2 * i ∨ iw = 2 * i + 1)))
    (h : okPair z L i) : okPair (z.setSlot Lw iw b) L i := by
  unfold okPair at h ⊢
  rw [slot_setSlot_ne z Lw iw b (L + 1) i (by tauto),
    slot_setSlot_ne z Lw iw b L (2 * i) (by tauto),
    slot_setSlot_ne z Lw iw b L (2 * i + 1) (by tauto)]
  exact h

lemma slot_used_of_len_le (z : Zone) (L i : Nat) (h : z.order_list.length ≤ L) :
    z.slot L i = .Used := by
  unfold Zone.slot
  rw [List.getD_eq_default _ _ h]
  rfl

lemma updateTreeGo_ok : ∀ (steps : Nat) (z : Zone) (co idx : Nat),
    1 ≤ co → co + steps = 12 → z.order_list.length ≤ 12 →
    (∀ L i, ¬(L + 1 = co ∧ i = idx / 2) → okPair z L i) →
    weakInv (updateTreeGo z co idx steps) := by
  intro steps
  induction steps with
  | zero =>
    intro z co idx _ hsum hlen hexc
    intro L i
    by_cases hLi : L + 1 = co ∧ i = idx / 2
    · left
      have hL : z.order_list.length ≤ L + 1 := by omega
      simpa [updateTreeGo] using slot_used_of_len_le z (L + 1) i hL
    · simpa [updateTreeGo] using hexc L i hLi
  | succ steps ih =>
    intro z co idx h1 hsum hlen hexc
    simp only [updateTreeGo]
    apply ih _ (co + 1) (idx / 2) (by omega) (by omega)
      (by simpa [Zone.setSlot, List.length_set] using hlen)
    intro L i hLi
    by_cases hA : L + 1 = co ∧ i = idx / 2
    · rcases slot_setSlot_self z co (idx / 2)
        (Block.parent_state (z.slot (co - 1) (2 * (idx / 2)))
          (z.slot (co - 1) (2 * (idx / 2) + 1))) with hs | hs
      · right
        have hco : co - 1 = L := by omega
        rw [slot_setSlot_ne z co (idx / 2) _ L (2 * i) (by omega),
          slot_setSlot_ne z co (idx / 2) _ L (2 * i + 1) (by omega),
          hA.1, hA.2, hs, hco]
      · left
        rw [hA.1, hA.2]
        exact hs
    · apply okPair_transfer z co (idx / 2) _ L i (by omega) (by omega)
      exact hexc L i (by omega)

lemma alloc_preserves_weakInv (z : Zone) (order : Nat) (horder : order ≤ MAX_ORDER)
    (hlen : z.order_list.length ≤ 12) (hinv : weakInv z) :
    ∀ (z' : Zone) (s e : Nat), z.alloc order = .ok z' s e → weakInv z' := by
  intro z' s e h
  unfold Zone.alloc at h
  cases hf : findFirst (fun blk => blk.larger_than order)
      (z.order_list.getD MAX_ORDER []) 0 with
  | none => simp only [hf] at h; cases h
  | some idx0 =>
    simp only [hf] at h
    cases hd : z.descend order idx0 (MAX_ORDER - order) with
    | none => simp only [hd] at h; cases h
    | some idx =>
      simp only [hd, AllocResult.ok.injEq] at h
      obtain ⟨hz', _, _⟩ := h
      subst hz'
      unfold Zone.update_tree
      have hM : MAX_ORDER = 11 := rfl
      apply updateTreeGo_ok (MAX_ORDER - order) _ (order + 1) idx (by omega)
        (by omega) (by simpa [Zone.setSlot, List.length_set] using hlen)
      intro L i hLi
      by_cases hA : L + 1 = order ∧ i = idx
      · left
        rw [hA.1, hA.2]
        rcases slot_setSlot_self z order idx .Used with hs | hs <;> exact hs
      · apply okPair_transfer z order idx .Used L i (by omega) (by omega)
        exact hinv L i

lemma bioStep_pow (m : Nat) : bioStep (2 ^ (m + 1)) = 2 ^ m := by
  unfold bioStep
  have h : (2 : Nat) ^ (m + 1) = 2 * 2 ^ m := by ring
  rw [h]
  simp [Nat.mul_div_cancel_left, Nat.mul_mod_right]

lemma bioAfter_one : ∀ k, bioAfter k 1 = 1 := by
  intro k
  induction k with
  | zero => rfl
  | succ k ih =>
    show bioAfter k (bioStep 1) = 1
    rw [show bioStep 1 = 1 from rfl]
    exact ih

lemma bioAfter_pow : ∀ L j : Nat, bioAfter L (2 ^ j) = if L ≤ j then 2 ^ (j - L) else 1 := by
  intro L
  induction L with
  | zero => intro j; simp [bioAfter]
  | succ L ih =>
    intro j
    cases j with
    | zero =>
      show bioAfter L (bioStep (2 ^ 0)) = _
      rw [show bioStep (2 ^ 0) = 1 from rfl, bioAfter_one]
      simp
    | succ m =>
      show bioAfter L (bioStep (2 ^ (m + 1))) = _
      rw [bioStep_pow, ih m]
      by_cases h : L ≤ m
      · rw [if_pos h, if_pos (by omega)]
        congr 1
        omega
      · rw [if_neg h, if_neg (by omega)]

lemma mob_pow_le {j : Nat} (hj : j ≤ 11) : maxOrderBlocks (2 ^ j) = 1 := by
  unfold maxOrderBlocks alignUp MAX_ORDER_PAGES
  rw [Nat.mul_div_cancel _ (by norm_num)]
  have h1 : 1 ≤ 2 ^ j := Nat.one_le_two_pow
  have h2 : (2 : Nat) ^ j ≤ 2048 := by
    calc (2 : Nat) ^ j ≤ 2 ^ 11 := Nat.pow_le_pow_right (by norm_num) hj
      _ = 2048 := by norm_num
  omega

lemma mob_pow_ge {j : Nat} (hj : 11 ≤ j) : maxOrderBlocks (2 ^ j) = 2 ^ (j - 11) := by
  unfold maxOrderBlocks alignUp MAX_ORDER_PAGES
  rw [Nat.mul_div_cancel _ (by norm_num)]
  have h1 : (2 : Nat) ^ j = 2 ^ (j - 11) * 2048 := by
    rw [show (2048 : Nat) = 2 ^ 11 from by norm_num, ← pow_add]
    congr 1
    omega
  rw [h1]
  omega

lemma log2ceil_pow (j : Nat) : min (log2ceil (2 ^ j)) 12 = min j 12 := by
  rcases le_or_lt j 64 with hj | hj
  · have hle : log2ceil (2 ^ j) ≤ j := log2ceil_le hj (le_refl _)
    have hge : j ≤ log2ceil (2 ^ j) := by
      by_contra hcon
      push_neg at hcon
      have hr : log2ceil (2 ^ j) < 64 := by omega
      have hspec := log2ceil_spec (2 ^ j) hr
      have := (Nat.pow_le_pow_iff_right (by norm_num : 1 < 2)).mp hspec
      omega
    omega
  · have hb := log2ceil_le_64 (2 ^ j)
    rcases Nat.lt_or_ge (log2ceil (2 ^ j)) 64 with h | h
    · exfalso
      have hspec := log2ceil_spec (2 ^ j) h
      have := (Nat.pow_le_pow_iff_right (by norm_num : 1 < 2)).mp hspec
      omega
    · have h64 : log2ceil (2 ^ j) = 64 := by omega
      rw [h64]
      omega

/-- Slot-level characterisation of Zone::new for a power-of-two page
count: below min(j, 12) level L has its first 2^(j-L) slots free at
order L; at and above, only the head slot is free, at order
min(j, 12). -/
lemma zone_new_pow2_slot (addr j L i : Nat) (hL : L < 12) :
    (Zone.new addr (PAGE_SIZE * 2 ^ j) (zeroSlab (2 ^ j))).slot L i =
      if L < min j 12 then
        (if i < 2 ^ (j - L) then Block.from_order L else .Used)
      else if i = 0 then Block.from_order (min j 12) else .Used := by
  rw [zone_new_slot addr (2 ^ j) L i Nat.one_le_two_pow hL, log2ceil_pow, bioAfter_pow]
  set m := min j 12 with hm
  by_cases h1 : L < m
  · rw [if_neg (by omega), if_pos h1]
    have hLj : L ≤ j := by omega
    rw [if_pos hLj]
    rcases le_or_lt j 11 with hj | hj
    · rw [mob_pow_le (by omega), one_mul]
      have hble : (2 : Nat) ^ (j - L) ≤ 2 ^ (11 - L) :=
        Nat.pow_le_pow_right (by norm_num) (by omega)
      by_cases hi : i < 2 ^ (j - L)
      · rw [if_pos ⟨hi, by omega⟩, if_pos hi]
      · rw [if_neg (by tauto), if_neg hi]
    · rw [mob_pow_ge (by omega)]
      have hlen2 : (2 : Nat) ^ (j - 11) * 2 ^ (11 - L) = 2 ^ (j - L) := by
        rw [← pow_add]
        congr 1
        omega
      rw [hlen2]
      by_cases hi : i < 2 ^ (j - L)
      · rw [if_pos ⟨hi, hi⟩, if_pos hi]
      · rw [if_neg (by tauto), if_neg hi]
  · have hjm : m = j := by omega
    rw [if_neg h1]
    by_cases hi : i = 0
    · rw [if_pos ⟨by omega, hi⟩, if_pos hi]
    · rw [if_neg (by tauto), if_neg hi]
      have hbio : (if L ≤ j then 2 ^ (j - L) else 1) ≤ 1 := by
        split
        · rw [show j - L = 0 from by omega]
          norm_num
        · exact le_refl 1
      rw [if_neg (by omega)]

/-- The weakened consistency invariant holds right after Zone::new
when the page count is a power of two. -/
lemma zone_new_pow2_weakInv (addr j : Nat) :
    weakInv (Zone.new addr (PAGE_SIZE * 2 ^ j) (zeroSlab (2 ^ j))) := by
  intro L i
  by_cases hL : L + 1 < 12
  · unfold okPair
    rw [zone_new_pow2_slot addr j (L + 1) i hL,
      zone_new_pow2_slot addr j L (2 * i) (by omega),
      zone_new_pow2_slot addr j L (2 * i + 1) (by omega)]
    set m := min j 12 with hm
    have hmj : m ≤ j := by omega
    by_cases h1 : L + 1 < m
    · have hL2 : L < m := by omega
      have hsplit : (2 : Nat) ^ (j - L) = 2 * 2 ^ (j - (L + 1)) := by
        rw [← pow_succ']
        congr 1
        omega
      by_cases hi : i < 2 ^ (j - (L + 1))
      · have hc1 : 2 * i < 2 ^ (j - L) := by omega
        have hc2 : 2 * i + 1 < 2 ^ (j - L) := by omega
        simp [h1, hL2, hi, hc1, hc2, Block.from_order, Block.parent_state]
      · simp [h1, hi]
    · by_cases h2 : L < m
      · have hLm : L + 1 = m := by omega
        by_cases hi : i = 0
        · subst hi
          have hj1 : 1 ≤ j - L := by omega
          have hgt : (1 : Nat) < 2 ^ (j - L) := by
            calc (1 : Nat) < 2 := by norm_num
              _ = 2 ^ 1 := by norm_num
              _ ≤ 2 ^ (j - L) := Nat.pow_le_pow_right (by norm_num) hj1
          have hc1 : 2 * 0 < 2 ^ (j - L) := by omega
          have hc2 : 2 * 0 + 1 < 2 ^ (j - L) := by omega
          have hsucc : L < L + 1 := by omega
          rw [← hLm]
          simp [hsucc, hc1, hc2, Block.from_order, Block.parent_state]
        · simp [h1, hi]
      · by_cases hi : i = 0
        · subst hi
          simp [h1, h2, Block.from_order, Block.parent_state]
        · simp [h1, h2, hi]
  · left
    apply slot_used_of_len_le
    rw [zone_new_length]
    omega

/-- C5 counterexample: the claimed full parent-equation fails both
right after Zone::new on a 3-page zone (the partially covered slot at
level 1, index 1 is filled LargestFreeOrder(1) although its children
read LargestFreeOrder(0) and Used, whose parent_state is
LargestFreeOrder(0)), and after a legitimate alloc(1) on a 2-page
zone (the allocated slot reads Used while its stale children still
read free, with parent_state LargestFreeOrder(1)). -/
theorem c5_consistency_counterexample :
    ((Zone.new 0 (PAGE_SIZE * 3) (zeroSlab 3)).slot 1 1 = Block.from_order 1 ∧
      Block.parent_state ((Zone.new 0 (PAGE_SIZE * 3) (zeroSlab 3)).slot 0 2)
        ((Zone.new 0 (PAGE_SIZE * 3) (zeroSlab 3)).slot 0 3) = Block.from_order 0 ∧
      Block.from_order 1 ≠ Block.from_order 0) ∧
    (match (Zone.new 0 (PAGE_SIZE * 2) (zeroSlab 2)).alloc 1 with
     | .ok z1 _ _ =>
         z1.slot 1 0 = .Used ∧
         Block.parent_state (z1.slot 0 0) (z1.slot 0 1) = Block.from_order 1 ∧
         (Block.Used : Block) ≠ Block.from_order 1
     | _ => False) := by
  refine ⟨⟨rfl, rfl, by decide⟩, ?_⟩
  show _ ∧ _ ∧ _
  exact ⟨rfl, rfl, by decide⟩

/-- C5 (amended): the weakened tree consistency - every internal slot
is Used or equal to parent_state of its children - holds right after
Zone::new when num_pages is a power of two (over a zeroed slab), and
is preserved by every successful Zone::alloc of a legal order; as
stated destructively for Zone::free, the invariant is vacuously
preserved because free panics on every input and never produces a
state. -/
theorem c5_tree_consistency :
    (∀ addr j, weakInv (Zone.new addr (PAGE_SIZE * 2 ^ j) (zeroSlab (2 ^ j)))) ∧
    (∀ (z : Zone) (order : Nat) (z' : Zone) (s e : Nat),
      order ≤ MAX_ORDER → z.order_list.length ≤ 12 → weakInv z →
      z.alloc order = .ok z' s e → weakInv z') ∧
    (∀ (z : Zone) (s e : Nat), z.free s e = none) :=
  ⟨zone_new_pow2_weakInv,
   fun z order z' s e h1 h2 h3 h4 => alloc_preserves_weakInv z order h1 h2 h3 z' s e h4,
   Zone.free_eq_none⟩

/-- Witness for C5 at a concrete input: the fresh 2-page zone
satisfies the weakened invariant, it is preserved by alloc(0) there,
and free produces no state. -/
theorem c5_tree_consistency_witness :
    weakInv (Zone.new 0 (PAGE_SIZE * 2 ^ 1) (zeroSlab (2 ^ 1))) ∧
    (match (Zone.new 0 (PAGE_SIZE * 2 ^ 1) (zeroSlab (2 ^ 1))).alloc 0 with
     | .ok z1 _ _ => weakInv z1
     | _ => False) ∧
    (Zone.new 0 (PAGE_SIZE * 2 ^ 1) (zeroSlab (2 ^ 1))).free 0 1 = none := by
  have hinit := c5_tree_consistency.1 0 1
  refine ⟨hinit, ?_, c5_tree_consistency.2.2 _ 0 1⟩
  have hval : allocRange ((Zone.new 0 (PAGE_SIZE * 2 ^ 1) (zeroSlab (2 ^ 1))).alloc 0) =
      some (0, 1) := rfl
  cases hr : (Zone.new 0 (PAGE_SIZE * 2 ^ 1) (zeroSlab (2 ^ 1))).alloc 0 with
  | ok z1 s e =>
    exact c5_tree_consistency.2.1 _ 0 z1 s e (by norm_num [MAX_ORDER])
      (le_of_eq (zone_new_length _ _ _)) hinit hr
  | fail z => rw [hr] at hval; simp [allocRange] at hval
  | stuck => rw [hr] at hval; simp [allocRange] at hval

end Solstice
